import Mathlib

/-
Verification of the `kdist` knowledge-distillation runner (`kdist/runner.py`).

Tensors of shape `[B, T, V]` are embedded as functions `Fin B → Fin T → Fin V → ℝ`,
PyTorch reductions (`sum`, `mean`) as finite sums over `Fin`, Python `dict` /
`list` lookups as `Option`-valued functions, and exceptions as `Option` / `Except`.
-/

namespace KDist

/-- A rank-3 tensor of shape `[B, T, V]`, modelled as a function into the reals. -/
abbrev Tensor3 (B T V : ℕ) : Type := Fin B → Fin T → Fin V → ℝ

/-- An attention mask of shape `[B, T]` (`1` marks a valid token, `0` padding). -/
abbrev Mask (B T : ℕ) : Type := Fin B → Fin T → ℝ

/-- The mask takes only the values `0` and `1`. -/
def IsBinaryMask {B T : ℕ} (m : Mask B T) : Prop := ∀ b t, m b t = 0 ∨ m b t = 1

/-- The value of `attn_mask.sum()`. -/
def maskSum {B T : ℕ} (m : Mask B T) : ℝ := ∑ b, ∑ t, m b t

/-- Denominator of a softmax over the last dimension: `∑ v, exp (f v)`. -/
noncomputable def softmaxDen {V : ℕ} (f : Fin V → ℝ) : ℝ := ∑ v, Real.exp (f v)

/-- The function `F.log_softmax(f, dim=-1)`: `f v - log (∑ w, exp (f w))`. -/
noncomputable def log_softmax {V : ℕ} (f : Fin V → ℝ) (v : Fin V) : ℝ :=
  f v - Real.log (softmaxDen f)

/-- Per-position summand of `kl_div` (runner.py line 302): with `p' = log_softmax f`
and `q' = log_softmax g`, this is `(p'.exp() * (p' - q')).sum(dim=-1)`. -/
noncomputable def klTerm {V : ℕ} (f g : Fin V → ℝ) : ℝ :=
  ∑ v, Real.exp (log_softmax f v) * (log_softmax f v - log_softmax g v)

/-- The rescaling factor of `kl_div` (runner.py line 301):
`attn_mask.sum() / (attn_mask.shape[0] * attn_mask.shape[1])`. -/
noncomputable def klScale {B T : ℕ} (m : Mask B T) : ℝ :=
  maskSum m / ((B : ℝ) * (T : ℝ))

/-- The masked KL divergence `kl_div(p, q, attn_mask)` (runner.py lines 298-302):
logits are multiplied by the broadcast mask before `log_softmax`, the cross term
is summed over the vocabulary, averaged (`.mean()`) over batch and sequence, and
divided by `klScale`. -/
noncomputable def kl_div {B T V : ℕ} (p q : Tensor3 B T V) (m : Mask B T) : ℝ :=
  (∑ b, ∑ t, klTerm (fun v => p b t v * m b t) (fun v => q b t v * m b t)) /
      ((B : ℝ) * (T : ℝ)) / klScale m

/-- Token-level cross entropy `F.cross_entropy(y.reshape(-1, V), labels.view(-1))`
with the default mean reduction (runner.py lines 110, 119). -/
noncomputable def cross_entropy {B T V : ℕ} (y : Tensor3 B T V)
    (labels : Fin B → Fin T → Fin V) : ℝ :=
  (∑ b, ∑ t, -(log_softmax (y b t) (labels b t))) / ((B : ℝ) * (T : ℝ))

/-- The `LAYER_MAPPING` dict (runner.py lines 23-29); a missing key (Python
`KeyError`) is `none`. -/
def LAYER_MAPPING (k : ℕ) : Option (List ℕ) :=
  if k = 2 then some [5, 11]
  else if k = 3 then some [3, 7, 11]
  else if k = 4 then some [2, 5, 8, 11]
  else if k = 6 then some [1, 3, 5, 7, 9, 11]
  else if k = 12 then some [0, 1, 2, 3, 4, 5, 6, 7, 8, 9, 10, 11]
  else none

/-- The list comprehension `[l[i] for i in idxs]`; an out-of-range index
(Python `IndexError`) is `none`. -/
def gather {α : Type} (l : List α) : List ℕ → Option (List α)
  | [] => some []
  | i :: is =>
    match l[i]?, gather l is with
    | some a, some as => some (a :: as)
    | _, _ => none

/-- Masked sum of squared errors of one teacher/student layer pair: the slice of
`stacked_pointwise_mse * attn_mask[None, :, :, None]` (runner.py lines 319-320)
contributed by one layer, summed over batch, sequence and channels. -/
def maskedSSE {B T D : ℕ} (t s : Tensor3 B T D) (m : Mask B T) : ℝ :=
  ∑ b, ∑ tt, ∑ c, (t b tt c - s b tt c) * (t b tt c - s b tt c) * m b tt

/-- The masked hidden-state MSE `hidden_loss(t_hidden, s_hidden, attn_mask,
include_embed)` (runner.py lines 305-321): optionally drop the embedding layer
(`[1:]`), gather teacher layers through `LAYER_MAPPING[len(s_h)]`, assert equal
lengths, and normalise the masked squared error by `B * T * hidden_dim`.
Lookup and indexing failures are `none`. -/
noncomputable def hidden_loss {B T D : ℕ} (t_hidden s_hidden : List (Tensor3 B T D))
    (m : Mask B T) (include_embed : Bool) : Option ℝ :=
  let s_h := if include_embed then s_hidden else s_hidden.tail
  let t_h0 := if include_embed then t_hidden else t_hidden.tail
  match LAYER_MAPPING s_h.length with
  | none => none
  | some idxs =>
    match gather t_h0 idxs with
    | none => none
    | some t_h =>
      if t_h.length = s_h.length then
        some ((((t_h.zip s_h).map fun ts => maskedSSE ts.1 ts.2 m).sum) /
          ((B : ℝ) * (T : ℝ) * (D : ℝ)))
      else none

/-- Model outputs: logits `[B, T, V]`, ordered hidden states `[B, T, D]`
(index 0 is the embedding layer), and an optional attached task loss. -/
structure Outputs (B T V D : ℕ) where
  logits : Tensor3 B T V
  hidden_states : List (Tensor3 B T D)
  loss : Option ℝ

/-- Lines 243-244 of runner.py: keep `hidden_states[0]` and pass every later
hidden state through its layer-specific adapter (`adapters[i]` applied to the
`i`-th element of `hidden_states[1:]`). The source indexes `hidden_states[0]`,
so the empty case is unreachable in any real forward pass. -/
def applyAdapters {B T D : ℕ} (adapters : ℕ → Tensor3 B T D → Tensor3 B T D) :
    List (Tensor3 B T D) → List (Tensor3 B T D)
  | [] => []
  | h0 :: rest => h0 :: rest.mapIdx fun i h => adapters i h

/-- Observable effects of one `KDRunner.train_forward` step: whether the teacher
forward pass tracked gradients (`with torch.no_grad():` on line 240), the loss
handed to `backward_pass_and_step` (line 256/258), and the scalar the step
returns (line 262). -/
structure KDStepTrace where
  teacherGradEnabled : Bool
  backpropLoss : Option ℝ
  returnedLoss : Option ℝ

/-- `KDRunner.train_forward` (runner.py lines 233-262) given the teacher and
student forward outputs: the student hidden states are adapter-transformed,
the KL loss is taken on the (untransformed) logits, the IKD loss on the hidden
states with `include_embed=False`, and the backpropagated loss is
`student task loss + kd_coeff * kl + ikd_coeff * ikd`. -/
noncomputable def kd_train_forward {B T V D : ℕ} (teacherOut studentOut : Outputs B T V D)
    (adapters : ℕ → Tensor3 B T D → Tensor3 B T D) (m : Mask B T)
    (kd_coeff ikd_coeff : ℝ) : KDStepTrace :=
  let s_hidden := applyAdapters adapters studentOut.hidden_states
  let kl_loss := kl_div teacherOut.logits studentOut.logits m
  let ikd_loss := hidden_loss teacherOut.hidden_states s_hidden m false
  { teacherGradEnabled := false
    backpropLoss :=
      match studentOut.loss, ikd_loss with
      | some task, some ikd => some (task + kd_coeff * kl_loss + ikd_coeff * ikd)
      | _, _ => none
    returnedLoss := studentOut.loss }

/-- A value stored in the training-state checkpoint dict: progress counters are
naturals, optimizer/scaler/adapter `state_dict`s are opaque numeric blobs. -/
inductive SVal where
  | num : ℕ → SVal
  | blob : List ℝ → SVal

/-- Read an `SVal` as a state blob. -/
def SVal.asBlob : SVal → Option (List ℝ)
  | .num _ => none
  | .blob b => some b

/-- Python dict lookup `d[k]`; a missing key (`KeyError`) is `none`. -/
def dictGet (k : String) : List (String × SVal) → Option SVal
  | [] => none
  | (k2, v) :: rest => if k = k2 then some v else dictGet k rest

/-- The base runner's mutable training state: optimizer and scaler `state_dict`s
plus the three progress counters. -/
structure TrainState where
  optim : List ℝ
  scaler : List ℝ
  step_id : ℕ
  epoch_id : ℕ
  total_steps : ℕ

/-- `KDRunner`'s training state additionally carries the adapters' state. -/
structure KDTrainState extends TrainState where
  adapters : List ℝ

/-- The runner attributes touched by `load_train_state`, dynamically typed as
Python attributes are: a counter slot can end up holding a non-integer object,
because `self.step_id = ckpt["step_id"]` is a plain assignment with no type
check. -/
structure PyState where
  optim : SVal
  scaler : SVal
  step_id : SVal
  epoch_id : SVal
  total_steps : SVal

/-- `KDRunner`'s attributes additionally include the adapters' state. -/
structure KDPyState extends PyState where
  adapters : SVal

/-- The attribute record of a well-typed training state. -/
def TrainState.toPyState (s : TrainState) : PyState :=
  ⟨SVal.blob s.optim, SVal.blob s.scaler, SVal.num s.step_id,
    SVal.num s.epoch_id, SVal.num s.total_steps⟩

/-- The attribute record of a well-typed `KDRunner` training state. -/
def KDTrainState.toKDPyState (s : KDTrainState) : KDPyState :=
  ⟨s.toTrainState.toPyState, SVal.blob s.adapters⟩

/-- `Runner.save_train_state` (runner.py lines 193-203): the dict written by
`torch.save`, in source order. -/
def save_train_state (s : TrainState) : List (String × SVal) :=
  [("optim", SVal.blob s.optim), ("scaler", SVal.blob s.scaler),
    ("step_id", SVal.num s.step_id), ("epoch_id", SVal.num s.epoch_id),
    ("total_steps", SVal.num s.total_steps)]

/-- `Runner.load_train_state` (runner.py lines 205-214), as the sequence of
in-place assignments the source performs, one statement per line of the
source. `optim.load_state_dict` / `scaler.load_state_dict` raise on a missing
key or a non-state-dict value; a counter assignment raises only on a missing
key (`KeyError`) and otherwise stores whatever object the dict holds, with no
type check. The result pairs the state after the last completed assignment
with whether an exception escaped: a failure part-way through keeps every
field already assigned. -/
def load_train_state (ckpt : List (String × SVal)) (s : PyState) :
    PyState × Bool :=
  match (dictGet "optim" ckpt).bind SVal.asBlob with
  | none => (s, true)
  | some o =>
    let s1 := { s with optim := SVal.blob o }
    match (dictGet "scaler" ckpt).bind SVal.asBlob with
    | none => (s1, true)
    | some sc =>
      let s2 := { s1 with scaler := SVal.blob sc }
      match dictGet "step_id" ckpt with
      | none => (s2, true)
      | some st =>
        let s3 := { s2 with step_id := st }
        match dictGet "epoch_id" ckpt with
        | none => (s3, true)
        | some ep =>
          let s4 := { s3 with epoch_id := ep }
          match dictGet "total_steps" ckpt with
          | none => (s4, true)
          | some ts => ({ s4 with total_steps := ts }, false)

/-- `KDRunner.save_train_state` (runner.py lines 265-276): the base dict plus
the adapters' state. -/
def kd_save_train_state (s : KDTrainState) : List (String × SVal) :=
  [("optim", SVal.blob s.optim), ("scaler", SVal.blob s.scaler),
    ("step_id", SVal.num s.step_id), ("epoch_id", SVal.num s.epoch_id),
    ("total_steps", SVal.num s.total_steps), ("adapters", SVal.blob s.adapters)]

/-- `KDRunner.load_train_state` (runner.py lines 278-288): the base assignment
sequence followed by `adapters.load_state_dict(ckpt["adapters"])`; a failure
there is raised after every counter has already been assigned. -/
def kd_load_train_state (ckpt : List (String × SVal)) (s : KDPyState) :
    KDPyState × Bool :=
  match load_train_state ckpt s.toPyState with
  | (base, true) => ({ toPyState := base, adapters := s.adapters }, true)
  | (base, false) =>
    match (dictGet "adapters" ckpt).bind SVal.asBlob with
    | none => ({ toPyState := base, adapters := s.adapters }, true)
    | some ad => ({ toPyState := base, adapters := SVal.blob ad }, false)

/-- Which message `Runner.__init__` prints: the resume message of line 72 or
the fresh-start message of line 74. -/
inductive InitMsg where
  | resumed : InitMsg
  | freshStart : InitMsg
deriving DecidableEq

/-- The resume logic of `Runner.__init__` (runner.py lines 41-76): counters are
first initialised to zero, then the `try` block runs `load_train_state` on
`trainstate.pt` (`file = none` models a missing or unreadable file, on which
`torch.load` raises before anything is assigned) and then loads the model
weights (`weightsOk = false` models a failing `from_pretrained`). Any
exception is caught and only changes which message is printed: the state keeps
every assignment made before the failure. -/
def runner_init (o sc : List ℝ) (file : Option (List (String × SVal)))
    (weightsOk : Bool) : PyState × InitMsg :=
  let fresh : PyState := TrainState.toPyState ⟨o, sc, 0, 0, 0⟩
  match file with
  | none => (fresh, InitMsg.freshStart)
  | some ckpt =>
    match load_train_state ckpt fresh with
    | (st, true) => (st, InitMsg.freshStart)
    | (st, false) =>
      if weightsOk then (st, InitMsg.resumed) else (st, InitMsg.freshStart)

/-- The save output of `s` with the value under `"step_id"` replaced by a
non-integer object. -/
def save_with_bad_step_id (s : TrainState) (junk : List ℝ) :
    List (String × SVal) :=
  [("optim", SVal.blob s.optim), ("scaler", SVal.blob s.scaler),
    ("step_id", SVal.blob junk), ("epoch_id", SVal.num s.epoch_id),
    ("total_steps", SVal.num s.total_steps)]

/-- Counter effect of one `train_forward` call (runner.py lines 144-145, and
identically lines 260-261 for `KDRunner`): `step_id` is set to the loop index
and `total_steps` is incremented. -/
def train_forward_counters (s : TrainState) (step : ℕ) : TrainState :=
  { s with step_id := step, total_steps := s.total_steps + 1 }

/-- Counter effect of one epoch of `Runner.run_loop` (runner.py lines 83-100):
set `epoch_id`, run `train_forward` for `step` in
`range(self.step_id, nsteps)`, then reset `step_id` to `0`. -/
def run_epoch (nsteps epoch : ℕ) (s : TrainState) : TrainState :=
  let s1 := { s with epoch_id := epoch }
  let s2 := (List.range' s1.step_id (nsteps - s1.step_id)).foldl
    train_forward_counters s1
  { s2 with step_id := 0 }

/-- Counter effect of the whole `Runner.run_loop` (runner.py lines 81-100):
epochs `startEpoch, …, startEpoch + epochs - 1` in order. -/
def run_loop (nsteps startEpoch epochs : ℕ) (s : TrainState) : TrainState :=
  (List.range' startEpoch epochs).foldl (fun st e => run_epoch nsteps e st) s

/-- A collated batch `(input ids, attention mask, labels)`. -/
structure Batch (B T V : ℕ) where
  input_ids : Fin B → Fin T → ℕ
  attn_mask : Mask B T
  labels : Fin B → Fin T → Fin V

/-- The first (`model`) argument of `forward_pass`: either an actual callable
model or — as happens on runner.py line 167 — the batch tuple itself. -/
inductive CallArg (B T V D : ℕ) where
  | callable : (Unit → Outputs B T V D) → CallArg B T V D
  | batchTuple : Batch B T V → CallArg B T V D

/-- Calling the `model` argument, `model(input_ids=…, …)`: a tuple is not
callable, so Python raises a `TypeError`. -/
def callModel {B T V D : ℕ} : CallArg B T V D → Except String (Outputs B T V D)
  | .callable f => Except.ok (f ())
  | .batchTuple _ => Except.error "TypeError: tuple is not callable"

/-- `Runner.forward_pass` (runner.py lines 101-121): call the model and, when
labels are given, attach the flattened token-level cross entropy as the loss. -/
noncomputable def forward_pass {B T V D : ℕ} (modelArg : CallArg B T V D)
    (labels : Option (Fin B → Fin T → Fin V)) : Except String (Outputs B T V D) :=
  match callModel modelArg with
  | .error e => Except.error e
  | .ok outputs =>
    match labels with
    | none => Except.ok outputs
    | some ls => Except.ok { outputs with loss := some (cross_entropy outputs.logits ls) }

/-- `np.mean` of a list of accumulated losses (as a real; `np.mean([])` is a
division of zero by zero). -/
noncomputable def npMean (l : List ℝ) : ℝ := l.sum / (l.length : ℝ)

/-- The body of the validation loop (runner.py lines 161-175): each step calls
`forward_pass(batch, x, attn_mask, t)` — passing the batch tuple in the `model`
position — and then appends the hard-coded loss `0`. -/
noncomputable def val_steps {B T V D : ℕ} (batches : ℕ → Batch B T V) :
    List ℕ → Except String (List ℝ)
  | [] => Except.ok []
  | i :: rest =>
    match forward_pass (D := D) (CallArg.batchTuple (batches i))
        (some (batches i).labels) with
    | .error e => Except.error e
    | .ok _ =>
      match val_steps (D := D) batches rest with
      | .error e => Except.error e
      | .ok ls => Except.ok (0 :: ls)

/-- `Runner.run_val` (runner.py lines 148-176): return `0` when there is no
validation split, otherwise run `len(valset) // batch_size` validation steps
and return the mean of the accumulated losses. -/
noncomputable def run_val {B T V D : ℕ} (hasVal : Bool) (numBatches : ℕ)
    (batches : ℕ → Batch B T V) : Except String ℝ :=
  if hasVal = false then Except.ok 0
  else
    match val_steps (D := D) batches (List.range numBatches) with
    | .error e => Except.error e
    | .ok losses => Except.ok (npMean losses)

/- ### Concrete inputs used by witnesses and counterexamples -/

/-- Logit tensor of shape `[1, 1, 2]` that is constantly `1`. -/
def cexP : Tensor3 1 1 2 := fun _ _ _ => 1

/-- Logit tensor of shape `[1, 1, 2]` that is constantly `0`. -/
def cexQ : Tensor3 1 1 2 := fun _ _ _ => 0

/-- All-ones `[1, 1]` attention mask. -/
def cexM : Mask 1 1 := fun _ _ => 1

/-- All-zero `[1, 1]` attention mask. -/
def zeroM : Mask 1 1 := fun _ _ => 0

/-- Hidden-state tensor of shape `[1, 1, 1]` that is constantly `1`. -/
def oneT : Tensor3 1 1 1 := fun _ _ _ => 1

/-- Hidden-state tensor of shape `[1, 1, 1]` that is constantly `0`. -/
def zeroT : Tensor3 1 1 1 := fun _ _ _ => 0

/-- Teacher outputs with 13 hidden states (embedding plus 12 layers). -/
def tOut0 : Outputs 1 1 1 1 := ⟨fun _ _ _ => 0, List.replicate 13 zeroT, none⟩

/-- Student outputs with 3 hidden states (embedding plus 2 layers) and task
loss `0`. -/
def sOut0 : Outputs 1 1 1 1 := ⟨fun _ _ _ => 0, [zeroT, zeroT, zeroT], some 0⟩

/-- Identity adapters. -/
def idAdapters : ℕ → Tensor3 1 1 1 → Tensor3 1 1 1 := fun _ h => h

/-- A concrete validation batch. -/
def valBatch : Batch 1 1 1 := ⟨fun _ _ => 0, fun _ _ => 1, fun _ _ => 0⟩

/-- A concrete saved training state with non-zero counters. -/
def savedState : TrainState := ⟨[], [], 3, 1, 7⟩

/- ### Helper lemmas on softmax and the per-position KL term -/

/-- A binary mask has non-negative entries. -/
theorem mask_entry_nonneg {B T : ℕ} {m : Mask B T} (hm : IsBinaryMask m)
    (b : Fin B) (t : Fin T) : 0 ≤ m b t := by
  rcases hm b t with h | h <;> simp [h]

/-- The softmax denominator is positive when the vocabulary is non-empty. -/
theorem softmaxDen_pos {V : ℕ} (hV : 0 < V) (f : Fin V → ℝ) : 0 < softmaxDen f := by
  have : Nonempty (Fin V) := Fin.pos_iff_nonempty.mp hV
  exact Finset.sum_pos (fun v _ => Real.exp_pos (f v)) Finset.univ_nonempty

/-- Exponentiating `log_softmax` recovers the softmax probabilities. -/
theorem exp_log_softmax {V : ℕ} (hV : 0 < V) (f : Fin V → ℝ) (v : Fin V) :
    Real.exp (log_softmax f v) = Real.exp (f v) / softmaxDen f := by
  rw [log_softmax, Real.exp_sub, Real.exp_log (softmaxDen_pos hV f)]

/-- The softmax probabilities sum to one. -/
theorem sum_exp_log_softmax {V : ℕ} (hV : 0 < V) (f : Fin V → ℝ) :
    ∑ v, Real.exp (log_softmax f v) = 1 := by
  have hden : ∑ v, Real.exp (f v) = softmaxDen f := rfl
  simp only [exp_log_softmax hV f]
  rw [← Finset.sum_div, hden]
  exact div_self (softmaxDen_pos hV f).ne'

/-- The value of `log_softmax` on a constant logit vector. -/
theorem log_softmax_const {V : ℕ} (hV : 0 < V) (c : ℝ) (v : Fin V) :
    log_softmax (fun _ => c) v = -Real.log (V : ℝ) := by
  have hden : softmaxDen (fun _ : Fin V => c) = (V : ℝ) * Real.exp c := by
    simp [softmaxDen, Finset.sum_const, Finset.card_univ, nsmul_eq_mul]
  rw [log_softmax, hden, Real.log_mul (Nat.cast_pos.mpr hV).ne' (Real.exp_ne_zero c),
    Real.log_exp]
  ring

/-- Pointwise Gibbs bound: each summand of `klTerm` dominates the difference of
the two softmax probabilities. -/
theorem klTerm_summand_ge {V : ℕ} (f g : Fin V → ℝ) (v : Fin V) :
    Real.exp (log_softmax f v) - Real.exp (log_softmax g v) ≤
      Real.exp (log_softmax f v) * (log_softmax f v - log_softmax g v) := by
  have hPpos : 0 < Real.exp (log_softmax f v) := Real.exp_pos _
  have hQpos : 0 < Real.exp (log_softmax g v) := Real.exp_pos _
  have h1 : Real.log (Real.exp (log_softmax g v) / Real.exp (log_softmax f v)) ≤
      Real.exp (log_softmax g v) / Real.exp (log_softmax f v) - 1 :=
    Real.log_le_sub_one_of_pos (div_pos hQpos hPpos)
  rw [Real.log_div hQpos.ne' hPpos.ne', Real.log_exp, Real.log_exp] at h1
  have h3 : Real.exp (log_softmax f v) * (log_softmax g v - log_softmax f v) ≤
      Real.exp (log_softmax f v) *
        (Real.exp (log_softmax g v) / Real.exp (log_softmax f v) - 1) :=
    mul_le_mul_of_nonneg_left h1 hPpos.le
  have h4 : Real.exp (log_softmax f v) *
      (Real.exp (log_softmax g v) / Real.exp (log_softmax f v) - 1) =
      Real.exp (log_softmax g v) - Real.exp (log_softmax f v) := by
    field_simp
  nlinarith [h3, h4]

/-- Strict pointwise Gibbs bound when the two softmax probabilities differ. -/
theorem klTerm_summand_gt {V : ℕ} (f g : Fin V → ℝ) (v : Fin V)
    (hne : Real.exp (log_softmax g v) ≠ Real.exp (log_softmax f v)) :
    Real.exp (log_softmax f v) - Real.exp (log_softmax g v) <
      Real.exp (log_softmax f v) * (log_softmax f v - log_softmax g v) := by
  have hPpos : 0 < Real.exp (log_softmax f v) := Real.exp_pos _
  have hQpos : 0 < Real.exp (log_softmax g v) := Real.exp_pos _
  have hratio : Real.exp (log_softmax g v) / Real.exp (log_softmax f v) ≠ 1 := by
    intro h
    exact hne ((div_eq_one_iff_eq hPpos.ne').mp h)
  have h1 : Real.log (Real.exp (log_softmax g v) / Real.exp (log_softmax f v)) <
      Real.exp (log_softmax g v) / Real.exp (log_softmax f v) - 1 :=
    Real.log_lt_sub_one_of_pos (div_pos hQpos hPpos) hratio
  rw [Real.log_div hQpos.ne' hPpos.ne', Real.log_exp, Real.log_exp] at h1
  have h3 : Real.exp (log_softmax f v) * (log_softmax g v - log_softmax f v) <
      Real.exp (log_softmax f v) *
        (Real.exp (log_softmax g v) / Real.exp (log_softmax f v) - 1) :=
    (mul_lt_mul_left hPpos).mpr h1
  have h4 : Real.exp (log_softmax f v) *
      (Real.exp (log_softmax g v) / Real.exp (log_softmax f v) - 1) =
      Real.exp (log_softmax g v) - Real.exp (log_softmax f v) := by
    field_simp
  nlinarith [h3, h4]

/-- Gibbs inequality: the per-position KL term is non-negative. -/
theorem klTerm_nonneg {V : ℕ} (f g : Fin V → ℝ) : 0 ≤ klTerm f g := by
  rcases Nat.eq_zero_or_pos V with hV | hV
  · subst hV
    simp [klTerm]
  · have hsum : ∑ v, (Real.exp (log_softmax f v) - Real.exp (log_softmax g v)) = 0 := by
      rw [Finset.sum_sub_distrib, sum_exp_log_softmax hV f, sum_exp_log_softmax hV g]
      ring
    calc (0 : ℝ)
        = ∑ v, (Real.exp (log_softmax f v) - Real.exp (log_softmax g v)) := hsum.symm
      _ ≤ klTerm f g := Finset.sum_le_sum fun v _ => klTerm_summand_ge f g v

/-- Equality case of Gibbs: the per-position KL term vanishes exactly when the
two log-softmax vectors (hence the two softmax distributions) coincide. -/
theorem klTerm_eq_zero_iff {V : ℕ} (f g : Fin V → ℝ) :
    klTerm f g = 0 ↔ ∀ v, log_softmax f v = log_softmax g v := by
  constructor
  · intro h0 v
    have hV : 0 < V := v.pos
    have hsum : ∑ w, (Real.exp (log_softmax f w) - Real.exp (log_softmax g w)) = 0 := by
      rw [Finset.sum_sub_distrib, sum_exp_log_softmax hV f, sum_exp_log_softmax hV g]
      ring
    have hle : ∀ w ∈ Finset.univ,
        Real.exp (log_softmax f w) - Real.exp (log_softmax g w) ≤
          Real.exp (log_softmax f w) * (log_softmax f w - log_softmax g w) :=
      fun w _ => klTerm_summand_ge f g w
    have hsums : ∑ w, (Real.exp (log_softmax f w) - Real.exp (log_softmax g w)) =
        ∑ w, Real.exp (log_softmax f w) * (log_softmax f w - log_softmax g w) := by
      rw [hsum]
      exact h0.symm
    have heq := (Finset.sum_eq_sum_iff_of_le hle).mp hsums v (Finset.mem_univ v)
    by_contra hne
    have hPQ : Real.exp (log_softmax g v) ≠ Real.exp (log_softmax f v) := by
      intro h
      exact hne (Real.exp_injective h).symm
    exact absurd heq (ne_of_lt (klTerm_summand_gt f g v hPQ))
  · intro h
    apply Finset.sum_eq_zero
    intro v _
    rw [h v]
    ring

/-- A positive binary mask sum forces both batch and sequence dimensions to be
positive. -/
theorem maskSum_pos_dims {B T : ℕ} (m : Mask B T) (hpos : 0 < maskSum m) :
    0 < B ∧ 0 < T := by
  constructor
  · rcases Nat.eq_zero_or_pos B with hB | hB
    · subst hB
      simp [maskSum] at hpos
    · exact hB
  · rcases Nat.eq_zero_or_pos T with hT | hT
    · subst hT
      simp [maskSum] at hpos
    · exact hT

/- ### Claim theorems -/

/-- Claim C1 (amended). For logit tensors `p`, `q` of shape `[B, T, V]` and a
0/1 attention mask with at least one valid position, `kl_div p q m` is a
non-negative scalar, and it is zero if and only if `p` and `q` induce the same
softmax distribution (equal `log_softmax` vectors) at every valid-mask
position; masked positions never influence a zero result. (The original claim's
"zero iff identical logits" fails: softmax is shift invariant, see the
counterexample.) -/
theorem kl_div_nonneg_zero_iff {B T V : ℕ} (p q : Tensor3 B T V) (m : Mask B T)
    (hm : IsBinaryMask m) (hpos : 0 < maskSum m) :
    0 ≤ kl_div p q m ∧
      (kl_div p q m = 0 ↔
        ∀ b t, m b t = 1 → ∀ v, log_softmax (p b t) v = log_softmax (q b t) v) := by
  obtain ⟨hB, hT⟩ := maskSum_pos_dims m hpos
  have hBT : (0 : ℝ) < (B : ℝ) * (T : ℝ) :=
    mul_pos (Nat.cast_pos.mpr hB) (Nat.cast_pos.mpr hT)
  have hscale : 0 < klScale m := div_pos hpos hBT
  have hinner : ∀ b : Fin B, (0 : ℝ) ≤
      ∑ t, klTerm (fun v => p b t v * m b t) (fun v => q b t v * m b t) :=
    fun b => Finset.sum_nonneg fun t _ => klTerm_nonneg _ _
  have hNnonneg : (0 : ℝ) ≤
      ∑ b, ∑ t, klTerm (fun v => p b t v * m b t) (fun v => q b t v * m b t) :=
    Finset.sum_nonneg fun b _ => hinner b
  constructor
  · exact div_nonneg (div_nonneg hNnonneg hBT.le) hscale.le
  · have hzero : kl_div p q m = 0 ↔
        (∑ b, ∑ t, klTerm (fun v => p b t v * m b t) (fun v => q b t v * m b t)) = 0 := by
      unfold kl_div
      rw [div_eq_zero_iff, div_eq_zero_iff]
      constructor
      · rintro ((h | h) | h)
        · exact h
        · exact absurd h hBT.ne'
        · exact absurd h hscale.ne'
      · intro h
        exact Or.inl (Or.inl h)
    rw [hzero,
      Finset.sum_eq_zero_iff_of_nonneg fun b _ => hinner b]
    constructor
    · intro h b t hmbt v
      have hb := h b (Finset.mem_univ b)
      have ht := (Finset.sum_eq_zero_iff_of_nonneg fun t _ => klTerm_nonneg _ _).mp hb
        t (Finset.mem_univ t)
      have hf : (fun v => p b t v * m b t) = p b t := by
        funext w
        rw [hmbt, mul_one]
      have hg : (fun v => q b t v * m b t) = q b t := by
        funext w
        rw [hmbt, mul_one]
      rw [hf, hg] at ht
      exact (klTerm_eq_zero_iff _ _).mp ht v
    · intro h b _
      apply Finset.sum_eq_zero
      intro t _
      rcases hm b t with h0 | h1
      · have hf : (fun v => p b t v * m b t) = fun _ => (0 : ℝ) := by
          funext w
          rw [h0, mul_zero]
        have hg : (fun v => q b t v * m b t) = fun _ => (0 : ℝ) := by
          funext w
          rw [h0, mul_zero]
        rw [hf, hg]
        exact (klTerm_eq_zero_iff _ _).mpr fun v => rfl
      · have hf : (fun v => p b t v * m b t) = p b t := by
          funext w
          rw [h1, mul_one]
        have hg : (fun v => q b t v * m b t) = q b t := by
          funext w
          rw [h1, mul_one]
        rw [hf, hg]
        exact (klTerm_eq_zero_iff _ _).mpr (h b t h1)

/-- Witness for C1: a concrete instantiation of the hypotheses (an all-ones
`[1, 1]` mask has value in `\x7b0, 1\x7d` and positive sum). -/
theorem kl_div_nonneg_zero_iff_witness : 0 ≤ kl_div cexP cexQ cexM :=
  (kl_div_nonneg_zero_iff cexP cexQ cexM (fun _ _ => Or.inr rfl)
    (by norm_num [maskSum, cexM])).1

/-- Counterexample to C1 as stated: with a single valid position, constant
teacher logits `1` and constant student logits `0` differ on that valid
position, yet the masked KL divergence is exactly `0`, because softmax is
invariant under a constant shift of the logits. -/
theorem kl_div_zero_of_shifted_logits :
    kl_div cexP cexQ cexM = 0 ∧ cexM 0 0 = 1 ∧ cexP 0 0 0 ≠ cexQ 0 0 0 := by
  refine ⟨?_, rfl, by norm_num [cexP, cexQ]⟩
  have hterm : klTerm (fun v => cexP 0 0 v * cexM 0 0)
      (fun v => cexQ 0 0 v * cexM 0 0) = 0 := by
    apply (klTerm_eq_zero_iff _ _).mpr
    intro v
    have hf : (fun v : Fin 2 => cexP 0 0 v * cexM 0 0) = fun _ => (1 : ℝ) := by
      funext w
      simp [cexP, cexM]
    have hg : (fun v : Fin 2 => cexQ 0 0 v * cexM 0 0) = fun _ => (0 : ℝ) := by
      funext w
      simp [cexQ, cexM]
    rw [hf, hg, log_softmax_const (by norm_num) 1 v, log_softmax_const (by norm_num) 0 v]
  unfold kl_div klScale maskSum
  simp only [Fin.sum_univ_one]
  rw [hterm]
  simp [cexM]

/-- Claim C10: the final division in `kl_div` is by
`klScale m = mask.sum() / (B * T)`; for a 0/1 mask this scale is zero exactly
when the mask has no valid position, and it is positive exactly when
`mask.sum()` is positive — so a well-defined (finite) result requires
`mask.sum() > 0` as a precondition. -/
theorem klScale_zero_iff {B T : ℕ} (m : Mask B T) (hm : IsBinaryMask m)
    (hB : 0 < B) (hT : 0 < T) :
    (klScale m = 0 ↔ ∀ b t, m b t = 0) ∧
      (0 < klScale m ↔ 0 < maskSum m) ∧
      (∀ (V : ℕ) (p q : Tensor3 B T V),
        kl_div p q m =
          (∑ b, ∑ t, klTerm (fun v => p b t v * m b t) (fun v => q b t v * m b t)) /
            ((B : ℝ) * (T : ℝ)) / klScale m) := by
  have hBT : (0 : ℝ) < (B : ℝ) * (T : ℝ) :=
    mul_pos (Nat.cast_pos.mpr hB) (Nat.cast_pos.mpr hT)
  have hinner : ∀ b ∈ (Finset.univ : Finset (Fin B)), (0 : ℝ) ≤ ∑ t, m b t :=
    fun b _ => Finset.sum_nonneg fun t _ => mask_entry_nonneg hm b t
  refine ⟨?_, ⟨?_, ?_⟩, fun V p q => rfl⟩
  · rw [klScale, div_eq_zero_iff]
    constructor
    · rintro (h0 | h)
      · intro b t
        have hb := (Finset.sum_eq_zero_iff_of_nonneg hinner).mp h0 b (Finset.mem_univ b)
        exact (Finset.sum_eq_zero_iff_of_nonneg
          fun t _ => mask_entry_nonneg hm b t).mp hb t (Finset.mem_univ t)
      · exact absurd h hBT.ne'
    · intro h
      left
      unfold maskSum
      exact Finset.sum_eq_zero fun b _ => Finset.sum_eq_zero fun t _ => h b t
  · intro h
    by_contra hns
    push_neg at hns
    have : klScale m ≤ 0 := div_nonpos_of_nonpos_of_nonneg hns hBT.le
    linarith
  · intro h
    exact div_pos h hBT

/-- Witness for C10: the all-zero `[1, 1]` mask satisfies the hypotheses, and
its scale is `0`. -/
theorem klScale_zero_iff_witness : klScale zeroM = 0 :=
  ((klScale_zero_iff zeroM (fun _ _ => Or.inl rfl) Nat.one_pos Nat.one_pos).1).mpr
    fun _ _ => rfl

/-- Claim C4: for every key in `\x7b2, 3, 4, 6, 12\x7d` the layer mapping is
defined, returns exactly `k` teacher layer indices, and those indices are
0-based, strictly increasing and all below the 12-layer teacher depth. -/
theorem layer_mapping_spec : ∀ k ∈ ([2, 3, 4, 6, 12] : List ℕ),
    (LAYER_MAPPING k).isSome = true ∧
      ((LAYER_MAPPING k).getD []).length = k ∧
      ((LAYER_MAPPING k).getD []).Pairwise (· < ·) ∧
      ∀ i ∈ (LAYER_MAPPING k).getD [], i < 12 := by
  decide

/-- Witness for C4 at the key `2`. -/
theorem layer_mapping_spec_witness :
    (LAYER_MAPPING 2).isSome = true ∧ ((LAYER_MAPPING 2).getD []).length = 2 :=
  ⟨(layer_mapping_spec 2 (by decide)).1, (layer_mapping_spec 2 (by decide)).2.1⟩

/-- Any key outside `\x7b2, 3, 4, 6, 12\x7d` misses the `LAYER_MAPPING` dict. -/
theorem LAYER_MAPPING_eq_none {k : ℕ} (hk : k ∉ ({2, 3, 4, 6, 12} : Finset ℕ)) :
    LAYER_MAPPING k = none := by
  simp only [Finset.mem_insert, Finset.mem_singleton, not_or] at hk
  obtain ⟨h2, h3, h4, h6, h12⟩ := hk
  simp [LAYER_MAPPING, h2, h3, h4, h6, h12]

/-- Claim C7: when the number of supervised student hidden states (after
dropping the embedding layer) is not one of the predefined keys, the
`LAYER_MAPPING` lookup fails, and `hidden_loss` fails with it — the unsupported
count is never interpolated to a mapping. -/
theorem hidden_loss_unsupported_layer_count {B T D : ℕ}
    (t_hidden s_hidden : List (Tensor3 B T D)) (m : Mask B T)
    (hk : s_hidden.tail.length ∉ ({2, 3, 4, 6, 12} : Finset ℕ)) :
    LAYER_MAPPING s_hidden.tail.length = none ∧
      hidden_loss t_hidden s_hidden m false = none := by
  have h := LAYER_MAPPING_eq_none hk
  refine ⟨h, ?_⟩
  have h' : LAYER_MAPPING (s_hidden.length - 1) = none := by
    rwa [← List.length_tail]
  unfold hidden_loss
  simp [h, h']

/-- Witness for C7: an empty student hidden-state list has zero supervised
layers, which is not a supported key. -/
theorem hidden_loss_unsupported_witness :
    LAYER_MAPPING (([] : List (Tensor3 1 1 1)).tail).length = none ∧
      hidden_loss [] ([] : List (Tensor3 1 1 1)) cexM false = none :=
  hidden_loss_unsupported_layer_count [] [] cexM (by decide)

/-- Claim C2: `hidden_loss` normalises by `B * T * hidden_dim` only, not by the
number of supervised layers: supervising the same teacher/student layer pair
`k` times yields exactly `k` times the single-pair normalised masked MSE, for
every supported layer count `k`. -/
theorem hidden_loss_layer_scaling {B T D : ℕ} (te se ht hs : Tensor3 B T D)
    (m : Mask B T) (k : ℕ) (hk : k ∈ ({2, 3, 4, 6, 12} : Finset ℕ)) :
    hidden_loss (te :: List.replicate 12 ht) (se :: List.replicate k hs) m false =
      some ((k : ℝ) * (maskedSSE ht hs m / ((B : ℝ) * (T : ℝ) * (D : ℝ)))) := by
  fin_cases hk <;>
    · norm_num [hidden_loss, LAYER_MAPPING, gather, List.replicate_succ]
      ring_nf

/-- Witness for C2 at `k = 2`, with unit hidden states against zero hidden
states under a full mask: twice the single-pair loss `1`. -/
theorem hidden_loss_layer_scaling_witness :
    hidden_loss (oneT :: List.replicate 12 oneT) (oneT :: List.replicate 2 zeroT)
      cexM false = some 2 := by
  have h := hidden_loss_layer_scaling oneT oneT oneT zeroT cexM 2 (by decide)
  have hsse : maskedSSE oneT zeroT cexM = 1 := by
    norm_num [maskedSSE, oneT, zeroT, cexM, Fin.sum_univ_one]
  rw [h, hsse]
  norm_num

/-- Claim C3: in a `KDRunner` training step the teacher forward pass runs with
gradients disabled, the student's non-embedding hidden states are passed
through their layer-specific adapters before the MSE comparison, and the loss
handed to `backward_pass_and_step` is
`task_loss + kd_coeff * KL + ikd_coeff * MSE`. -/
theorem kd_train_forward_spec {B T V D : ℕ} (tO sO : Outputs B T V D)
    (adapters : ℕ → Tensor3 B T D → Tensor3 B T D) (m : Mask B T)
    (kd_coeff ikd_coeff task ikd : ℝ)
    (htask : sO.loss = some task)
    (hikd : hidden_loss tO.hidden_states (applyAdapters adapters sO.hidden_states)
      m false = some ikd) :
    (kd_train_forward tO sO adapters m kd_coeff ikd_coeff).teacherGradEnabled = false ∧
      (kd_train_forward tO sO adapters m kd_coeff ikd_coeff).backpropLoss =
        some (task + kd_coeff * kl_div tO.logits sO.logits m + ikd_coeff * ikd) := by
  refine ⟨rfl, ?_⟩
  simp [kd_train_forward, htask, hikd]

/-- Witness for C3: zero teacher/student outputs with identity adapters,
13 teacher and 3 student hidden states, and both coefficients `1`. -/
theorem kd_train_forward_spec_witness :
    (kd_train_forward tOut0 sOut0 idAdapters cexM 1 1).teacherGradEnabled = false ∧
      (kd_train_forward tOut0 sOut0 idAdapters cexM 1 1).backpropLoss =
        some (0 + 1 * kl_div tOut0.logits sOut0.logits cexM + 1 * 0) := by
  refine kd_train_forward_spec tOut0 sOut0 idAdapters cexM 1 1 0 0 rfl ?_
  have hmap : applyAdapters idAdapters sOut0.hidden_states = [zeroT, zeroT, zeroT] := rfl
  rw [hmap]
  norm_num [tOut0, hidden_loss, LAYER_MAPPING, gather, List.replicate_succ,
    maskedSSE, zeroT, cexM]

/-- `load_train_state` restores exactly the attribute values that
`save_train_state` serialised, whatever state it overwrites, and raises no
exception. -/
theorem load_train_state_save (s : TrainState) (t : PyState) :
    load_train_state (save_train_state s) t = (s.toPyState, false) := rfl

/-- `KDRunner`'s load restores exactly what its save serialised, including the
adapter state, and raises no exception. -/
theorem kd_load_train_state_save (ks : KDTrainState) (kt : KDPyState) :
    kd_load_train_state (kd_save_train_state ks) kt = (ks.toKDPyState, false) := rfl

/-- Claim C6: saving then loading the training state round-trips without an
exception: the counters `step_id`, `epoch_id`, `total_steps` and the
optimizer/scaler (and, for the distillation runner, adapter) sub-states are
restored to exactly the saved values. -/
theorem train_state_roundtrip (s : TrainState) (t : PyState)
    (ks : KDTrainState) (kt : KDPyState) :
    load_train_state (save_train_state s) t = (s.toPyState, false) ∧
      kd_load_train_state (kd_save_train_state ks) kt = (ks.toKDPyState, false) :=
  ⟨load_train_state_save s t, kd_load_train_state_save ks kt⟩

/-- Claim C5 (amended): constructing a runner never raises — every resume
failure is caught, changing only which message is printed. Against a missing
or unreadable `trainstate.pt` (where `torch.load` raises before any
assignment) the counters start fresh at `(0, 0, 0)`; against a complete
well-typed saved state the counters resume exactly as saved, even when the
subsequent model-weight load fails. But the fallback does not reset partial
progress: a checkpoint that fails at a late key — here, one truncated before
`"total_steps"`, or a base-runner checkpoint loaded by a `KDRunner`, which
raises at `"adapters"` after every counter is assigned — is caught with the
already-assigned counters in place; and a non-integer value under a counter
key raises nothing at all, so it is silently assigned and the resume message
is printed. -/
theorem runner_init_resume (o sc : List ℝ) (s : TrainState) (w : Bool)
    (junk : List ℝ) (kt : KDPyState) :
    runner_init o sc none w =
        (TrainState.toPyState ⟨o, sc, 0, 0, 0⟩, InitMsg.freshStart) ∧
      runner_init o sc (some (save_train_state s)) true =
        (s.toPyState, InitMsg.resumed) ∧
      runner_init o sc (some (save_train_state s)) false =
        (s.toPyState, InitMsg.freshStart) ∧
      runner_init o sc (some ((save_train_state s).take 4)) w =
        ({ s.toPyState with total_steps := SVal.num 0 }, InitMsg.freshStart) ∧
      runner_init o sc (some (save_with_bad_step_id s junk)) true =
        ({ s.toPyState with step_id := SVal.blob junk }, InitMsg.resumed) ∧
      kd_load_train_state (save_train_state s) kt =
        ({ toPyState := s.toPyState, adapters := kt.adapters }, true) :=
  ⟨rfl, rfl, rfl, rfl, rfl, rfl⟩

/-- Counterexample to C5 as stated: with a valid `trainstate.pt` but corrupt
model weights, the resume failure is caught (the fresh-start message is
printed), yet the runner does not start fresh — `total_steps` keeps the loaded
value `7`, not `0`. -/
theorem runner_init_not_fresh_on_weight_failure :
    (runner_init [] [] (some (save_train_state savedState)) false).2 =
        InitMsg.freshStart ∧
      (runner_init [] [] (some (save_train_state savedState)) false).1.total_steps =
        SVal.num 7 ∧
      (runner_init [] [] (some (save_train_state savedState)) false).1.total_steps ≠
        SVal.num 0 := by
  refine ⟨rfl, rfl, ?_⟩
  intro h
  have h7 : SVal.num 7 = SVal.num 0 := h
  simp at h7

/-- `total_steps` never decreases along the inner training loop, each
`train_forward` adding exactly one. -/
theorem foldl_train_total_le (l : List ℕ) (s : TrainState) :
    s.total_steps ≤ (l.foldl train_forward_counters s).total_steps := by
  induction l generalizing s with
  | nil => exact le_refl _
  | cons a l ih =>
    rw [List.foldl_cons]
    have h1 : s.total_steps ≤ (train_forward_counters s a).total_steps :=
      Nat.le_succ s.total_steps
    exact le_trans h1 (ih (train_forward_counters s a))

/-- `total_steps` never decreases across one epoch. -/
theorem run_epoch_total_le (n e : ℕ) (s : TrainState) :
    s.total_steps ≤ (run_epoch n e s).total_steps := by
  unfold run_epoch
  exact foldl_train_total_le _ { s with epoch_id := e }

/-- Every epoch ends with `step_id` reset to `0`. -/
theorem run_epoch_step_id (n e : ℕ) (s : TrainState) :
    (run_epoch n e s).step_id = 0 := rfl

/-- `total_steps` never decreases across any sequence of epochs. -/
theorem foldl_epochs_total_le (l : List ℕ) (n : ℕ) (s : TrainState) :
    s.total_steps ≤ (l.foldl (fun st e => run_epoch n e st) s).total_steps := by
  induction l generalizing s with
  | nil => exact le_refl _
  | cons a l ih =>
    rw [List.foldl_cons]
    exact le_trans (run_epoch_total_le n a s) (ih _)

/-- After a non-empty sequence of epochs, `step_id` is `0`. -/
theorem foldl_epochs_step_id (l : List ℕ) (n : ℕ) :
    ∀ s : TrainState, l ≠ [] →
      (l.foldl (fun st e => run_epoch n e st) s).step_id = 0 := by
  induction l with
  | nil =>
    intro s h
    exact absurd rfl h
  | cons a l ih =>
    intro s h
    rw [List.foldl_cons]
    cases l with
    | nil => exact run_epoch_step_id n a s
    | cons b l2 => exact ih _ (by simp)

/-- Claim C9: each `train_forward` call increases `total_steps` by exactly one
and nothing in the loop decreases it (it is monotone across an epoch and
across the whole `run_loop`), while `step_id` is reset to `0` at every epoch
boundary, so each new epoch's inner loop starts from step `0`. -/
theorem counters_invariants (s : TrainState) (k nsteps epoch startEpoch epochs : ℕ)
    (h : 0 < epochs) :
    (train_forward_counters s k).total_steps = s.total_steps + 1 ∧
      (run_epoch nsteps epoch s).step_id = 0 ∧
      s.total_steps ≤ (run_epoch nsteps epoch s).total_steps ∧
      s.total_steps ≤ (run_loop nsteps startEpoch epochs s).total_steps ∧
      (run_loop nsteps startEpoch epochs s).step_id = 0 := by
  refine ⟨rfl, rfl, run_epoch_total_le _ _ _, foldl_epochs_total_le _ _ _, ?_⟩
  apply foldl_epochs_step_id
  simp only [ne_eq, List.range'_eq_nil]
  omega

/-- Witness for C9: one epoch of one step from the saved state ends at
`step_id = 0`. -/
theorem counters_invariants_witness : (run_loop 1 0 1 savedState).step_id = 0 :=
  (counters_invariants savedState 0 1 0 0 1 Nat.one_pos).2.2.2.2

/-- Claim C8 (code bug): the base `run_val` returns `0` when there is no
validation split, but with a validation split and at least one full batch it
does not report `0` — line 167 passes the batch tuple as the `model` argument
of `forward_pass`, so the first validation step raises a `TypeError`. -/
theorem run_val_raises {B T V D : ℕ} (batches : ℕ → Batch B T V) (n : ℕ)
    (hn : 0 < n) :
    run_val (D := D) false n batches = Except.ok 0 ∧
      run_val (D := D) true n batches =
        Except.error "TypeError: tuple is not callable" := by
  refine ⟨rfl, ?_⟩
  cases n with
  | zero => omega
  | succ m =>
    rw [run_val, List.range_succ_eq_map]
    simp [val_steps, forward_pass, callModel]

/-- Witness for C8: a single-batch validation split raises instead of
reporting `0`. -/
theorem run_val_raises_witness :
    run_val (D := 1) true 1 (fun _ => valBatch) =
      Except.error "TypeError: tuple is not callable" :=
  (run_val_raises (fun _ => valBatch) 1 Nat.one_pos).2

end KDist
